import Mathlib

/-!
Verification of the chem_func repository's similarity and canonicalization
utilities.  The code in `chem_utils/molecular_similarities.py`,
`chem_utils/canonicalize_smiles.py` and `nearest_neighbor_tanimoto.py` is
embedded shallowly: molecules are an abstract type, and the external
cheminformatics toolkit (RDKit parsing/canonicalization, Morgan fingerprint
generation, maximum-common-substructure search) is a record of abstract
functions, since those collaborators live outside this repository.
Matrices are lists of rows of rationals; `numpy`'s negative infinity used for
diagonal masking is modelled by `WithBot ℚ` with `⊥` as `-inf`.
-/

namespace ChemFunc

/-- Number of `true` entries of a bit vector. -/
def countTrue (l : List Bool) : ℕ := l.count true

/-- Size of the intersection of two bit vectors (positions where both are set). -/
def interCount (a b : List Bool) : ℕ := countTrue (List.zipWith (fun x y => x && y) a b)

/-- Size of the union of two bit vectors (positions where at least one is set). -/
def unionCount (a b : List Bool) : ℕ := countTrue (List.zipWith (fun x y => x || y) a b)

/-- Jaccard distance between two boolean vectors, as computed by
`sklearn.metrics.pairwise_distances(..., metric='jaccard')`:
`(|union| - |inter|) / |union|`, and `0` when the union is empty. -/
def jaccardDistance (a b : List Bool) : ℚ :=
  if unionCount a b = 0 then 0
  else ((unionCount a b : ℚ) - (interCount a b : ℚ)) / (unionCount a b : ℚ)

/-- Modelled from the spec: the external collaborator contracts of §6
(`chem_utils/molecular_fingerprints.py` and the RDKit molecule handle are not
part of the sources).  `morganFp` is the Morgan fingerprint generator
(`fingerprint(Molecule, kind)` with the kind fixed to Morgan), `mcsNumAtoms`
is `FindMCS([m1, m2]).numAtoms`, and `numAtoms` is `mol.GetNumAtoms()`. -/
structure ChemEnv (Mol : Type) where
  morganFp : Mol → List Bool
  mcsNumAtoms : Mol → Mol → ℕ
  numAtoms : Mol → ℕ

/-- Source `compute_pairwise_tanimoto_similarities`
(`molecular_similarities.py` lines 46-65): fingerprint both collections as
boolean vectors (reusing `fps_1` when `mols_2` is `None`), compute the
pairwise Jaccard distances, and return `1 -` those distances. -/
def compute_pairwise_tanimoto_similarities {Mol : Type} (env : ChemEnv Mol)
    (mols_1 : List Mol) (mols_2 : Option (List Mol)) : List (List ℚ) :=
  let fps_1 := mols_1.map env.morganFp
  let fps_2 := match mols_2 with
    | some m2 => m2.map env.morganFp
    | none => fps_1
  fps_1.map (fun a => fps_2.map (fun b => 1 - jaccardDistance a b))

/-- Source `compute_mcs_size` (`molecular_similarities.py` lines 68-75):
atom count of the maximum common substructure of a pair of molecules. -/
def compute_mcs_size {Mol : Type} (env : ChemEnv Mol) (p : Mol × Mol) : ℕ :=
  env.mcsNumAtoms p.1 p.2

/-- `numpy.reshape(rows, cols)` on a flat list: split into `rows` chunks of
`cols` consecutive elements. -/
def reshapeRows {α : Type} (rows cols : ℕ) (xs : List α) : List (List α) :=
  match rows with
  | 0 => []
  | r + 1 => xs.take cols :: reshapeRows r cols (xs.drop cols)

/-- Source `compute_pairwise_mcs_similarities`
(`molecular_similarities.py` lines 78-107): flatten the Cartesian product of
the two collections in row-major order (`itertools.product`), map
`compute_mcs_size` over the tasks (the pool's `imap` returns results in task
order regardless of completion order), reshape to a matrix, and divide each
column `j` by the atom count of molecule `j` of `mols_2`. -/
def compute_pairwise_mcs_similarities {Mol : Type} (env : ChemEnv Mol)
    (mols_1 : List Mol) (mols_2 : Option (List Mol)) : List (List ℚ) :=
  let m2 := mols_2.getD mols_1
  let pairwise_mcs :=
    (mols_1.flatMap (fun a => m2.map (fun b => (a, b)))).map (fun p => compute_mcs_size env p)
  let mat := reshapeRows mols_1.length m2.length pairwise_mcs
  let num_atoms_2 := m2.map (fun m => env.numAtoms m)
  mat.map (fun row => List.zipWith (fun (x n : ℕ) => (x : ℚ) / (n : ℚ)) row num_atoms_2)

/-- Casting a fingerprint bit to an integer (`dtype=int` on a boolean array). -/
def boolToInt (b : Bool) : ℕ := if b then 1 else 0

/-- Source `compute_pairwise_tversky_similarities`
(`molecular_similarities.py` lines 110-133): fingerprint both collections as
integer vectors, take `intersection = fps_1 @ fps_2.T` and
`size_2 = fps_2.sum(axis=1)`, and return `intersection / size_2`. -/
def compute_pairwise_tversky_similarities {Mol : Type} (env : ChemEnv Mol)
    (mols_1 : List Mol) (mols_2 : Option (List Mol)) : List (List ℚ) :=
  let fps_1 := mols_1.map (fun m => (env.morganFp m).map boolToInt)
  let fps_2 := match mols_2 with
    | some m2 => m2.map (fun m => (env.morganFp m).map boolToInt)
    | none => fps_1
  fps_1.map (fun a => fps_2.map (fun b =>
    ((List.zipWith (fun (x y : ℕ) => x * y) a b).sum : ℚ) / ((b.sum : ℕ) : ℚ)))

/-- The type of a registered similarity function, abstracted over the
external toolkit environment. -/
def SimilarityFunction (Mol : Type) : Type :=
  ChemEnv Mol → List Mol → Option (List Mol) → List (List ℚ)

/-- Source `SIMILARITY_FUNCTION_REGISTRY`: the global registry populated by
the `register_similarity_function` decorators, in source order. -/
def SIMILARITY_FUNCTION_REGISTRY (Mol : Type) : List (String × SimilarityFunction Mol) :=
  [("tanimoto", fun env m1 m2 => compute_pairwise_tanimoto_similarities env m1 m2),
   ("mcs", fun env m1 m2 => compute_pairwise_mcs_similarities env m1 m2),
   ("tversky", fun env m1 m2 => compute_pairwise_tversky_similarities env m1 m2)]

/-- Source `get_similarity_function` (`molecular_similarities.py` lines
34-43): return the registered function, or raise
`ValueError(f'Similarity function "{similarity_type}" could not be found.')`. -/
def get_similarity_function (Mol : Type) (similarity_type : String) :
    Except String (SimilarityFunction Mol) :=
  match (SIMILARITY_FUNCTION_REGISTRY Mol).lookup similarity_type with
  | some f => Except.ok f
  | none => Except.error
      ("Similarity function \"" ++ similarity_type ++ "\" could not be found.")

/-- A rational similarity matrix viewed with `-inf`-capable entries. -/
def toBotMatrix (mat : List (List ℚ)) : List (List (WithBot ℚ)) :=
  mat.map (fun row => row.map (fun q => (q : WithBot ℚ)))

/-- `np.fill_diagonal(mat, -np.inf)`: set entry `(i, i)` of each row to `⊥`. -/
def fill_diagonal_bot (mat : List (List (WithBot ℚ))) : List (List (WithBot ℚ)) :=
  mat.mapIdx (fun i row => row.set i ⊥)

/-- `np.max(row)` over a row that may contain `-inf`; `⊥` for an empty row. -/
def rowMax (row : List (WithBot ℚ)) : WithBot ℚ := row.foldl max ⊥

/-- Source `compute_max_similarities` (`molecular_similarities.py` lines
136-162): look up the similarity function, compute the pairwise matrix, mask
the diagonal with `-inf` when `reference_mols` is `None`, and take each row's
maximum. -/
def compute_max_similarities {Mol : Type} (env : ChemEnv Mol) (similarity_type : String)
    (mols : List Mol) (reference_mols : Option (List Mol)) :
    Except String (List (WithBot ℚ)) :=
  match get_similarity_function Mol similarity_type with
  | Except.error e => Except.error e
  | Except.ok f =>
    let pairwise_similarities := toBotMatrix (f env mols reference_mols)
    let masked := match reference_mols with
      | none => fill_diagonal_bot pairwise_similarities
      | some _ => pairwise_similarities
    Except.ok (masked.map rowMax)

/-- Entry `(i, j)` of a list-of-rows matrix, with default `0`. -/
def entry (mat : List (List ℚ)) (i j : ℕ) : ℚ := (mat.getD i []).getD j 0

/-- A concrete toolkit environment over two molecules, used to instantiate
universally quantified theorems: molecule `true` has fingerprint `[T, T]`,
molecule `false` has fingerprint `[T, F]`. -/
def exampleEnv : ChemEnv Bool :=
  { morganFp := fun m => if m then [true, true] else [true, false],
    mcsNumAtoms := fun a b => if a == b then 2 else 1,
    numAtoms := fun _ => 2 }

theorem interCount_le_unionCount (a b : List Bool) : interCount a b ≤ unionCount a b := by
  unfold interCount unionCount
  induction a generalizing b with
  | nil => simp [countTrue]
  | cons x xs ih =>
    cases b with
    | nil => simp [countTrue]
    | cons y ys =>
      simp only [List.zipWith_cons_cons, countTrue, List.count_cons] at ih ⊢
      have h := ih ys
      cases x <;> cases y <;> simp <;> omega

theorem unionCount_pos {a b : List Bool} (hlen : a.length = b.length)
    (ha : 0 < countTrue a) : 0 < unionCount a b := by
  unfold unionCount
  induction a generalizing b with
  | nil => simp [countTrue] at ha
  | cons x xs ih =>
    cases b with
    | nil => simp at hlen
    | cons y ys =>
      simp only [List.length_cons, Nat.add_right_cancel_iff] at hlen
      simp only [List.zipWith_cons_cons, countTrue, List.count_cons]
      cases x with
      | true => simp
      | false =>
        have ha' : 0 < countTrue xs := by
          simpa [countTrue, List.count_cons] using ha
        have h := ih hlen ha'
        cases y with
        | true => simp
        | false => simpa [countTrue, List.count_cons] using h

theorem jaccardDistance_nonneg (a b : List Bool) : 0 ≤ jaccardDistance a b := by
  unfold jaccardDistance
  split
  · exact le_refl 0
  · apply div_nonneg _ (by positivity)
    have h := interCount_le_unionCount a b
    have : (interCount a b : ℚ) ≤ (unionCount a b : ℚ) := by exact_mod_cast h
    linarith

theorem jaccardDistance_le_one (a b : List Bool) : jaccardDistance a b ≤ 1 := by
  unfold jaccardDistance
  split
  · norm_num
  · rename_i h
    have hpos : (0 : ℚ) < (unionCount a b : ℚ) := by
      exact_mod_cast Nat.pos_of_ne_zero h
    rw [div_le_one hpos]
    have : (0 : ℚ) ≤ (interCount a b : ℚ) := by positivity
    linarith

theorem jaccardDistance_self (a : List Bool) : jaccardDistance a a = 0 := by
  have hiu : interCount a a = unionCount a a := by
    unfold interCount unionCount
    simp [List.zipWith_same]
  unfold jaccardDistance
  rw [hiu]
  split
  · rfl
  · simp

theorem jaccardDistance_comm (a b : List Bool) : jaccardDistance a b = jaccardDistance b a := by
  have hi : interCount a b = interCount b a := by
    unfold interCount
    rw [List.zipWith_comm_of_comm _ Bool.and_comm]
  have hu : unionCount a b = unionCount b a := by
    unfold unionCount
    rw [List.zipWith_comm_of_comm _ Bool.or_comm]
  unfold jaccardDistance
  rw [hi, hu]

theorem one_sub_jaccardDistance {a b : List Bool} (h : unionCount a b ≠ 0) :
    1 - jaccardDistance a b = (interCount a b : ℚ) / (unionCount a b : ℚ) := by
  unfold jaccardDistance
  rw [if_neg h]
  have hq : (unionCount a b : ℚ) ≠ 0 := by exact_mod_cast h
  field_simp

theorem entry_map_map {α β : Type} (f : α → β → ℚ) (l1 : List α) (l2 : List β)
    (i j : ℕ) (hi : i < l1.length) (hj : j < l2.length) :
    entry (l1.map (fun a => l2.map (fun b => f a b))) i j =
      f (l1.get ⟨i, hi⟩) (l2.get ⟨j, hj⟩) := by
  have h1 : (l1.map (fun a => l2.map (fun b => f a b))).getD i [] =
      l2.map (fun b => f (l1.get ⟨i, hi⟩) b) := by
    rw [List.getD_eq_getElem _ _ (by simpa using hi), List.getElem_map]
    simp
  unfold entry
  rw [h1, List.getD_eq_getElem _ _ (by simpa using hj), List.getElem_map]
  simp

theorem compute_pairwise_tanimoto_eq_map {Mol : Type} (env : ChemEnv Mol)
    (mols_1 : List Mol) (mols_2 : Option (List Mol)) :
    compute_pairwise_tanimoto_similarities env mols_1 mols_2 =
      mols_1.map (fun m => (mols_2.getD mols_1).map (fun m' =>
        1 - jaccardDistance (env.morganFp m) (env.morganFp m'))) := by
  cases mols_2 <;>
    simp [compute_pairwise_tanimoto_similarities, List.map_map, Function.comp_def]

/-- C1: `compute_pairwise_tanimoto_similarities` returns a matrix of shape
`(|mols_1|, |mols_2 or mols_1|)` whose entry `(i, j)` is `1` minus the Jaccard
distance of the boolean Morgan fingerprints of molecule `i` of `mols_1` and
molecule `j` of `mols_2`, i.e. `|fp_i ∩ fp_j| / |fp_i ∪ fp_j|`.  Validity of
the molecules is reflected by the Morgan fingerprints having the generator's
fixed length `n` and at least one set bit. -/
theorem tanimoto_matrix_is_jaccard_ratio {Mol : Type} (env : ChemEnv Mol) (n : ℕ)
    (mols_1 : List Mol) (mols_2 : Option (List Mol))
    (hne : 1 ≤ mols_1.length)
    (hlen1 : ∀ m ∈ mols_1, (env.morganFp m).length = n)
    (hlen2 : ∀ m ∈ mols_2.getD mols_1, (env.morganFp m).length = n)
    (hv1 : ∀ m ∈ mols_1, 0 < countTrue (env.morganFp m)) :
    (compute_pairwise_tanimoto_similarities env mols_1 mols_2).length = mols_1.length ∧
    (∀ row ∈ compute_pairwise_tanimoto_similarities env mols_1 mols_2,
        row.length = (mols_2.getD mols_1).length) ∧
    ∀ (i j : ℕ) (hi : i < mols_1.length) (hj : j < (mols_2.getD mols_1).length),
      entry (compute_pairwise_tanimoto_similarities env mols_1 mols_2) i j =
        (interCount (env.morganFp (mols_1.get ⟨i, hi⟩))
            (env.morganFp ((mols_2.getD mols_1).get ⟨j, hj⟩)) : ℚ) /
          (unionCount (env.morganFp (mols_1.get ⟨i, hi⟩))
            (env.morganFp ((mols_2.getD mols_1).get ⟨j, hj⟩)) : ℚ) := by
  refine ⟨?_, ?_, ?_⟩
  · rw [compute_pairwise_tanimoto_eq_map]
    simp
  · intro row hrow
    rw [compute_pairwise_tanimoto_eq_map] at hrow
    rcases List.mem_map.mp hrow with ⟨m, hm, rfl⟩
    simp
  · intro i j hi hj
    rw [compute_pairwise_tanimoto_eq_map, entry_map_map _ _ _ i j hi hj]
    apply one_sub_jaccardDistance
    have hmem1 : mols_1.get ⟨i, hi⟩ ∈ mols_1 := List.get_mem _ _ _
    have hmem2 : (mols_2.getD mols_1).get ⟨j, hj⟩ ∈ mols_2.getD mols_1 := List.get_mem _ _ _
    have hl : (env.morganFp (mols_1.get ⟨i, hi⟩)).length =
        (env.morganFp ((mols_2.getD mols_1).get ⟨j, hj⟩)).length := by
      rw [hlen1 _ hmem1, hlen2 _ hmem2]
    exact Nat.pos_iff_ne_zero.mp (unionCount_pos hl (hv1 _ hmem1))

/-- Witness for C1: in the concrete two-molecule environment, the Tanimoto
entry for the fingerprints `[T, T]` and `[T, F]` is `1/2 = |∩| / |∪|`. -/
theorem tanimoto_matrix_is_jaccard_ratio_witness :
    entry (compute_pairwise_tanimoto_similarities exampleEnv [true, false] none) 0 1 = 1 / 2 := by
  have h := (tanimoto_matrix_is_jaccard_ratio exampleEnv 2 [true, false] none
      (by decide) (by decide) (by decide) (by decide)).2.2 0 1 (by decide) (by decide)
  rw [h]
  norm_num [exampleEnv, interCount, unionCount, countTrue]

/-- C7: every Tanimoto similarity computed by
`compute_pairwise_tanimoto_similarities` lies in `[0, 1]`, the similarity of
a molecule with itself (diagonal of a self-comparison) is `1`, and the
function is symmetric: entry `(i, j)` of the matrix for `(mols_1, mols_2)`
equals entry `(j, i)` of the matrix for `(mols_2, mols_1)`. -/
theorem tanimoto_bounds_self_symmetric {Mol : Type} (env : ChemEnv Mol) :
    (∀ (mols_1 mols_2 : List Mol) (i j : ℕ), i < mols_1.length → j < mols_2.length →
        0 ≤ entry (compute_pairwise_tanimoto_similarities env mols_1 (some mols_2)) i j ∧
        entry (compute_pairwise_tanimoto_similarities env mols_1 (some mols_2)) i j ≤ 1) ∧
    (∀ (mols : List Mol) (i : ℕ), i < mols.length →
        entry (compute_pairwise_tanimoto_similarities env mols none) i i = 1) ∧
    (∀ (mols_1 mols_2 : List Mol) (i j : ℕ), i < mols_1.length → j < mols_2.length →
        entry (compute_pairwise_tanimoto_similarities env mols_1 (some mols_2)) i j =
          entry (compute_pairwise_tanimoto_similarities env mols_2 (some mols_1)) j i) := by
  refine ⟨?_, ?_, ?_⟩
  · intro mols_1 mols_2 i j hi hj
    rw [compute_pairwise_tanimoto_eq_map]
    simp only [Option.getD_some]
    rw [entry_map_map _ _ _ i j hi hj]
    constructor
    · have := jaccardDistance_le_one (env.morganFp (mols_1.get ⟨i, hi⟩))
        (env.morganFp (mols_2.get ⟨j, hj⟩))
      linarith
    · have := jaccardDistance_nonneg (env.morganFp (mols_1.get ⟨i, hi⟩))
        (env.morganFp (mols_2.get ⟨j, hj⟩))
      linarith
  · intro mols i hi
    rw [compute_pairwise_tanimoto_eq_map]
    simp only [Option.getD_none]
    rw [entry_map_map _ _ _ i i hi hi]
    rw [jaccardDistance_self]
    norm_num
  · intro mols_1 mols_2 i j hi hj
    rw [compute_pairwise_tanimoto_eq_map, compute_pairwise_tanimoto_eq_map]
    simp only [Option.getD_some]
    rw [entry_map_map _ _ _ i j hi hj, entry_map_map _ _ _ j i hj hi]
    rw [jaccardDistance_comm]

/-- Witness for C7 at concrete molecules: bounds, a diagonal entry equal to
`1`, and symmetry of the two cross matrices. -/
theorem tanimoto_bounds_self_symmetric_witness :
    (0 ≤ entry (compute_pairwise_tanimoto_similarities exampleEnv [true] (some [false])) 0 0 ∧
      entry (compute_pairwise_tanimoto_similarities exampleEnv [true] (some [false])) 0 0 ≤ 1) ∧
    entry (compute_pairwise_tanimoto_similarities exampleEnv [true, false] none) 1 1 = 1 ∧
    entry (compute_pairwise_tanimoto_similarities exampleEnv [true] (some [false])) 0 0 =
      entry (compute_pairwise_tanimoto_similarities exampleEnv [false] (some [true])) 0 0 :=
  ⟨(tanimoto_bounds_self_symmetric exampleEnv).1 [true] [false] 0 0 (by decide) (by decide),
    (tanimoto_bounds_self_symmetric exampleEnv).2.1 [true, false] 1 (by decide),
    (tanimoto_bounds_self_symmetric exampleEnv).2.2 [true] [false] 0 0 (by decide) (by decide)⟩

/-- C6: `get_similarity_function` returns the registered similarity function
when the name is in the registry, and otherwise fails with a `ValueError`
whose message names the unrecognized key; there is no fuzzy matching and no
default, and no similarity computation is performed by the lookup. -/
theorem get_similarity_function_lookup_spec (Mol : Type) (similarity_type : String) :
    (∀ f : SimilarityFunction Mol, (similarity_type, f) ∈ SIMILARITY_FUNCTION_REGISTRY Mol →
        get_similarity_function Mol similarity_type = Except.ok f) ∧
    (similarity_type ∉ (SIMILARITY_FUNCTION_REGISTRY Mol).map Prod.fst →
        get_similarity_function Mol similarity_type = Except.error
          ("Similarity function \"" ++ similarity_type ++ "\" could not be found.")) := by
  constructor
  · intro f hf
    simp only [SIMILARITY_FUNCTION_REGISTRY, List.mem_cons, List.mem_singleton,
      List.not_mem_nil, or_false, Prod.mk.injEq] at hf
    rcases hf with ⟨rfl, rfl⟩ | ⟨rfl, rfl⟩ | ⟨rfl, rfl⟩ <;> rfl
  · intro hn
    simp only [SIMILARITY_FUNCTION_REGISTRY, List.map_cons, List.map_nil,
      List.mem_cons, List.not_mem_nil, or_false, not_or] at hn
    obtain ⟨h1, h2, h3⟩ := hn
    have e1 : (similarity_type == "tanimoto") = false := beq_eq_false_iff_ne.mpr h1
    have e2 : (similarity_type == "mcs") = false := beq_eq_false_iff_ne.mpr h2
    have e3 : (similarity_type == "tversky") = false := beq_eq_false_iff_ne.mpr h3
    simp [get_similarity_function, SIMILARITY_FUNCTION_REGISTRY, List.lookup, e1, e2, e3]

/-- Witness for C6 at concrete inputs: the registered name `"tanimoto"` is
found, and the unknown name `"cosine"` yields the descriptive error. -/
theorem get_similarity_function_lookup_spec_witness :
    get_similarity_function Bool "tanimoto" =
      Except.ok (fun env m1 m2 => compute_pairwise_tanimoto_similarities env m1 m2) ∧
    get_similarity_function Bool "cosine" = Except.error
      ("Similarity function \"cosine\" could not be found.") :=
  ⟨(get_similarity_function_lookup_spec Bool "tanimoto").1 _
      (by simp [SIMILARITY_FUNCTION_REGISTRY]),
   (get_similarity_function_lookup_spec Bool "cosine").2
      (by simp [SIMILARITY_FUNCTION_REGISTRY])⟩

theorem sum_map_boolToInt (l : List Bool) : (l.map boolToInt).sum = countTrue l := by
  induction l with
  | nil => simp [countTrue]
  | cons x xs ih =>
    simp only [List.map_cons, List.sum_cons, countTrue, List.count_cons] at ih ⊢
    cases x <;> simp [boolToInt] <;> omega

theorem sum_zipWith_boolToInt (a b : List Bool) :
    (List.zipWith (fun (x y : ℕ) => x * y) (a.map boolToInt) (b.map boolToInt)).sum =
      interCount a b := by
  have hfun : (fun (x y : Bool) => boolToInt x * boolToInt y) =
      fun x y => boolToInt (x && y) := by
    funext x y
    cases x <;> cases y <;> rfl
  rw [List.zipWith_map, hfun, ← List.map_zipWith boolToInt (fun x y => x && y),
    sum_map_boolToInt]
  rfl

theorem compute_pairwise_tversky_eq_map {Mol : Type} (env : ChemEnv Mol)
    (mols_1 : List Mol) (mols_2 : Option (List Mol)) :
    compute_pairwise_tversky_similarities env mols_1 mols_2 =
      mols_1.map (fun m => (mols_2.getD mols_1).map (fun m' =>
        (interCount (env.morganFp m) (env.morganFp m') : ℚ) /
          (countTrue (env.morganFp m') : ℚ))) := by
  have inner : ∀ (m m' : Mol),
      ((List.zipWith (fun (x y : ℕ) => x * y) ((env.morganFp m).map boolToInt)
          ((env.morganFp m').map boolToInt)).sum : ℚ) /
        ((((env.morganFp m').map boolToInt).sum : ℕ) : ℚ) =
      (interCount (env.morganFp m) (env.morganFp m') : ℚ) /
        (countTrue (env.morganFp m') : ℚ) := by
    intro m m'
    rw [sum_zipWith_boolToInt, sum_map_boolToInt]
  cases mols_2 with
  | none =>
    simp only [compute_pairwise_tversky_similarities, Option.getD_none, List.map_map,
      Function.comp_def]
    congr 1
    funext m
    congr 1
    funext m'
    exact inner m m'
  | some m2 =>
    simp only [compute_pairwise_tversky_similarities, Option.getD_some, List.map_map,
      Function.comp_def]
    congr 1
    funext m
    congr 1
    funext m'
    exact inner m m'

/-- C4: `compute_pairwise_tversky_similarities` (with `alpha = 0`, `beta = 1`)
returns entry `(i, j)` equal to `|fp_i ∩ fp_j| / |fp_j|`, the fraction of
reference molecule `j`'s fingerprint bits present in query molecule `i`
(stated for molecules whose fingerprints have at least one set bit), and the
function is not symmetric: swapping `mols_1` and `mols_2` changes the result
for the concrete two-molecule environment. -/
theorem tversky_matrix_spec :
    (∀ (Mol : Type) (env : ChemEnv Mol) (mols_1 : List Mol) (mols_2 : Option (List Mol)),
        (∀ m ∈ mols_1, 0 < countTrue (env.morganFp m)) →
        (∀ m ∈ mols_2.getD mols_1, 0 < countTrue (env.morganFp m)) →
        ∀ (i j : ℕ) (hi : i < mols_1.length) (hj : j < (mols_2.getD mols_1).length),
          entry (compute_pairwise_tversky_similarities env mols_1 mols_2) i j =
            (interCount (env.morganFp (mols_1.get ⟨i, hi⟩))
                (env.morganFp ((mols_2.getD mols_1).get ⟨j, hj⟩)) : ℚ) /
              (countTrue (env.morganFp ((mols_2.getD mols_1).get ⟨j, hj⟩)) : ℚ)) ∧
    compute_pairwise_tversky_similarities exampleEnv [true] (some [false]) ≠
      compute_pairwise_tversky_similarities exampleEnv [false] (some [true]) := by
  constructor
  · intro Mol env mols_1 mols_2 hv1 hv2 i j hi hj
    rw [compute_pairwise_tversky_eq_map, entry_map_map _ _ _ i j hi hj]
  · intro hEq
    have h1 : entry (compute_pairwise_tversky_similarities exampleEnv [true]
        (some [false])) 0 0 = 1 := by
      rw [compute_pairwise_tversky_eq_map]
      simp only [Option.getD_some]
      rw [entry_map_map _ _ _ 0 0 (by decide) (by decide)]
      norm_num [exampleEnv, interCount, countTrue]
    have h2 : entry (compute_pairwise_tversky_similarities exampleEnv [false]
        (some [true])) 0 0 = 1 / 2 := by
      rw [compute_pairwise_tversky_eq_map]
      simp only [Option.getD_some]
      rw [entry_map_map _ _ _ 0 0 (by decide) (by decide)]
      norm_num [exampleEnv, interCount, countTrue]
    rw [hEq, h2] at h1
    norm_num at h1

/-- Witness for C4 at concrete fingerprints: the fraction of `[T, F]`'s single
set bit present in `[T, T]` is `1`. -/
theorem tversky_matrix_spec_witness :
    entry (compute_pairwise_tversky_similarities exampleEnv [true] (some [false])) 0 0 = 1 := by
  have h := tversky_matrix_spec.1 Bool exampleEnv [true] (some [false])
    (by decide) (by decide) 0 0 (by decide) (by decide)
  rw [h]
  norm_num [exampleEnv, interCount, countTrue]

theorem reshapeRows_flatMap {α β γ : Type} (g : α → β → γ) (m1 : List α) (m2 : List β) :
    reshapeRows m1.length m2.length (m1.flatMap (fun a => m2.map (fun b => g a b))) =
      m1.map (fun a => m2.map (fun b => g a b)) := by
  induction m1 with
  | nil => simp [reshapeRows]
  | cons a as ih =>
    have hlen : (m2.map (fun b => g a b)).length = m2.length := by simp
    simp only [List.flatMap_cons, List.length_cons, reshapeRows, List.map_cons]
    rw [← hlen, List.take_left, List.drop_left, hlen, ih]

theorem compute_pairwise_mcs_eq_map {Mol : Type} (env : ChemEnv Mol)
    (mols_1 : List Mol) (mols_2 : Option (List Mol)) :
    compute_pairwise_mcs_similarities env mols_1 mols_2 =
      mols_1.map (fun a => (mols_2.getD mols_1).map (fun b =>
        (env.mcsNumAtoms a b : ℚ) / (env.numAtoms b : ℚ))) := by
  have hflat : ((mols_1.flatMap (fun a => (mols_2.getD mols_1).map (fun b => (a, b)))).map
        (fun p : Mol × Mol => env.mcsNumAtoms p.1 p.2)) =
      mols_1.flatMap (fun a => (mols_2.getD mols_1).map (fun b => env.mcsNumAtoms a b)) := by
    rw [List.map_flatMap]
    simp [List.map_map, Function.comp_def]
  simp only [compute_pairwise_mcs_similarities, compute_mcs_size]
  rw [hflat, reshapeRows_flatMap (fun a b => env.mcsNumAtoms a b) mols_1 (mols_2.getD mols_1)]
  rw [List.map_map]
  congr 1
  funext a
  simp only [Function.comp_def]
  rw [List.zipWith_map, List.zipWith_same]

/-- C5: entry `(i, j)` of `compute_pairwise_mcs_similarities` equals the atom
count of the maximum common substructure of molecule `i` of `mols_1` and
molecule `j` of `mols_2`, divided by the atom count of molecule `j`; the
flattened Cartesian-product results are reassembled into row-major matrix
positions (the pool's `imap` keeps task order, so placement is independent of
worker completion order). -/
theorem mcs_matrix_spec {Mol : Type} (env : ChemEnv Mol)
    (mols_1 : List Mol) (mols_2 : Option (List Mol))
    (hpos : ∀ m ∈ mols_2.getD mols_1, 0 < env.numAtoms m) :
    (compute_pairwise_mcs_similarities env mols_1 mols_2).length = mols_1.length ∧
    (∀ row ∈ compute_pairwise_mcs_similarities env mols_1 mols_2,
        row.length = (mols_2.getD mols_1).length) ∧
    ∀ (i j : ℕ) (hi : i < mols_1.length) (hj : j < (mols_2.getD mols_1).length),
      entry (compute_pairwise_mcs_similarities env mols_1 mols_2) i j =
        (env.mcsNumAtoms (mols_1.get ⟨i, hi⟩) ((mols_2.getD mols_1).get ⟨j, hj⟩) : ℚ) /
          (env.numAtoms ((mols_2.getD mols_1).get ⟨j, hj⟩) : ℚ) := by
  refine ⟨?_, ?_, ?_⟩
  · rw [compute_pairwise_mcs_eq_map]
    simp
  · intro row hrow
    rw [compute_pairwise_mcs_eq_map] at hrow
    rcases List.mem_map.mp hrow with ⟨m, hm, rfl⟩
    simp
  · intro i j hi hj
    rw [compute_pairwise_mcs_eq_map, entry_map_map _ _ _ i j hi hj]

/-- Witness for C5: in the concrete environment the MCS of the two distinct
molecules has one atom and the reference molecule has two, giving `1/2`. -/
theorem mcs_matrix_spec_witness :
    entry (compute_pairwise_mcs_similarities exampleEnv [true, false] none) 0 1 = 1 / 2 := by
  have h := (mcs_matrix_spec exampleEnv [true, false] none (by decide)).2.2 0 1
    (by decide) (by decide)
  rw [h]
  norm_num [exampleEnv]

theorem foldl_max_set_bot (xs : List (WithBot ℚ)) :
    ∀ (i : ℕ) (c : WithBot ℚ),
      List.foldl max c (xs.set i ⊥) = List.foldl max c (xs.eraseIdx i) := by
  induction xs with
  | nil => intro i c; simp
  | cons x l ih =>
    intro i c
    cases i with
    | zero =>
      simp only [List.set_cons_zero, List.eraseIdx_cons_zero, List.foldl_cons]
      rw [max_eq_left bot_le]
    | succ n =>
      simp only [List.set_cons_succ, List.eraseIdx_cons_succ, List.foldl_cons]
      exact ih n (max c x)

theorem rowMax_set_bot (row : List (WithBot ℚ)) (i : ℕ) :
    rowMax (row.set i ⊥) = rowMax (row.eraseIdx i) :=
  foldl_max_set_bot row i ⊥

theorem map_mapIdx_eq {α β γ : Type} (f : ℕ → α → β) (g : β → γ) (l : List α) :
    (l.mapIdx f).map g = l.mapIdx (fun i a => g (f i a)) := by
  induction l generalizing f with
  | nil => simp
  | cons x xs ih => simp [List.mapIdx_cons, ih]

theorem fill_diag_map_rowMax (mat : List (List (WithBot ℚ))) :
    (fill_diagonal_bot mat).map rowMax = mat.mapIdx (fun i row => rowMax (row.eraseIdx i)) := by
  unfold fill_diagonal_bot
  rw [map_mapIdx_eq]
  congr 1
  funext i row
  exact rowMax_set_bot row i

/-- C2: on a self-comparison (`reference_mols` omitted),
`compute_max_similarities` masks every diagonal entry with `-inf` before
taking row maxima, so the reported maximum of row `i` is the maximum of row
`i` with column `i` removed — it never comes from column `i`; when
`reference_mols` is provided, rows are reduced unmodified. -/
theorem compute_max_similarities_masks_diagonal {Mol : Type} (env : ChemEnv Mol)
    (similarity_type : String) (mols : List Mol) (f : SimilarityFunction Mol)
    (hf : get_similarity_function Mol similarity_type = Except.ok f)
    (h2 : 2 ≤ mols.length) :
    (compute_max_similarities env similarity_type mols none =
        Except.ok ((toBotMatrix (f env mols none)).mapIdx
          (fun i row => rowMax (row.eraseIdx i)))) ∧
    ∀ reference_mols : List Mol,
      compute_max_similarities env similarity_type mols (some reference_mols) =
        Except.ok ((toBotMatrix (f env mols (some reference_mols))).map rowMax) := by
  constructor
  · unfold compute_max_similarities
    rw [hf]
    simp only []
    rw [fill_diag_map_rowMax]
  · intro reference_mols
    unfold compute_max_similarities
    rw [hf]

/-- Witness for C2 on a concrete two-molecule self-comparison with the
registered `"tanimoto"` function. -/
theorem compute_max_similarities_masks_diagonal_witness :
    compute_max_similarities exampleEnv "tanimoto" [true, false] none =
      Except.ok ((toBotMatrix (compute_pairwise_tanimoto_similarities exampleEnv
          [true, false] none)).mapIdx (fun i row => rowMax (row.eraseIdx i))) :=
  (compute_max_similarities_masks_diagonal exampleEnv "tanimoto" [true, false]
    (fun env m1 m2 => compute_pairwise_tanimoto_similarities env m1 m2) rfl (by decide)).1

/-- C10: a self-comparison on a single molecule does not fail:
`compute_max_similarities` returns the one-element vector whose entry is the
masked diagonal value `-inf`, for every registered similarity type. -/
theorem compute_max_similarities_singleton {Mol : Type} (env : ChemEnv Mol) (m : Mol)
    (similarity_type : String)
    (h : similarity_type ∈ ["tanimoto", "mcs", "tversky"]) :
    compute_max_similarities env similarity_type [m] none = Except.ok [⊥] := by
  simp only [List.mem_cons, List.not_mem_nil, or_false] at h
  rcases h with rfl | rfl | rfl <;>
    simp [compute_max_similarities, get_similarity_function, SIMILARITY_FUNCTION_REGISTRY,
      List.lookup, compute_pairwise_tanimoto_similarities, compute_pairwise_mcs_similarities,
      compute_pairwise_tversky_similarities, compute_mcs_size, reshapeRows, toBotMatrix,
      fill_diagonal_bot, rowMax, List.mapIdx_cons]

/-- Witness for C10: single-molecule self-comparison with `"mcs"` in the
concrete environment. -/
theorem compute_max_similarities_singleton_witness :
    compute_max_similarities exampleEnv "mcs" [true] none = Except.ok [⊥] :=
  compute_max_similarities_singleton exampleEnv true "mcs" (by decide)

/-- Source `compute_pairwise_tanimoto_distances`
(`nearest_neighbor_tanimoto.py` lines 26-42): Morgan-fingerprint both SMILES
collections (the external `compute_morgan_fingerprints` is the abstract `fp`)
and compute the pairwise Jaccard distances. -/
def compute_pairwise_tanimoto_distances (fp : String → List Bool)
    (mols_1 mols_2 : List String) : List (List ℚ) :=
  let fps_1 := mols_1.map fp
  let fps_2 := mols_2.map fp
  fps_1.map (fun a => fps_2.map (fun b => jaccardDistance a b))

/-- Maximum of a list of rationals (`np.max` over a nonempty row; `0` for an
empty row, where numpy would raise instead). -/
def listMax : List ℚ → ℚ
  | [] => 0
  | x :: xs => xs.foldl max x

/-- `np.argmax` over a row: the first index whose value is the row maximum. -/
def argmax (l : List ℚ) : ℕ := l.findIdx (fun x => listMax l ≤ x)

def dedupFirstAux (seen : List String) : List String → List String
  | [] => []
  | x :: xs => if x ∈ seen then dedupFirstAux seen xs else x :: dedupFirstAux (x :: seen) xs

/-- `DataFrame.drop_duplicates`: keep the first occurrence of each SMILES. -/
def drop_duplicates (l : List String) : List String := dedupFirstAux [] l

/-- Python string comparison, used by `DataFrame.sort_values`: lexicographic
on the sequence of code points. -/
def smilesLe (a b : String) : Prop := a.data ≤ b.data

instance : DecidableRel smilesLe := fun a b => inferInstanceAs (Decidable (a.data ≤ b.data))

instance : IsTotal String smilesLe := ⟨fun a b => le_total a.data b.data⟩

instance : IsTrans String smilesLe := ⟨fun _ _ _ => le_trans⟩

/-- `DataFrame.sort_values` on the reference SMILES column. -/
def sort_values (l : List String) : List String := List.insertionSort smilesLe l

/-- The two columns that `add_nearest_neighbors` attaches to the data frame:
each column is its name together with its list of per-row values. -/
structure NeighborColumns where
  nn_name : String
  nn : List String
  sim_name : String
  sim : List ℚ

/-- Source `add_nearest_neighbors` (`nearest_neighbor_tanimoto.py` lines
45-67): assert that the similarity matrix's column count equals the number of
reference SMILES, take each row's `argmax`, and build the
`{prefix}nearest_neighbor` and `{prefix}nearest_neighbor_similarity` columns
(`pre` is the prefix string). -/
def add_nearest_neighbors (similarities : List (List ℚ)) (reference_smiles : List String)
    (pre : String) : Except String NeighborColumns :=
  if similarities.all (fun row => row.length == reference_smiles.length) then
    let max_similarity_indices := similarities.map argmax
    Except.ok
      { nn_name := pre ++ "nearest_neighbor"
        nn := max_similarity_indices.map (fun j => reference_smiles.getD j "")
        sim_name := pre ++ "nearest_neighbor_similarity"
        sim := similarities.map (fun row => row.getD (argmax row) 0) }
  else Except.error "AssertionError"

/-- The column-name start built from `reference_name`
(`nearest_neighbor_tanimoto.py` line 105): `f'{reference_name}_'` when a
reference name is given, else the empty string. -/
def column_pre (reference_name : Option String) : String :=
  match reference_name with
  | some n => n ++ "_"
  | none => ""

/-- Source `nearest_neighbor_tanimoto` (`nearest_neighbor_tanimoto.py` lines
70-115) minus the CSV I/O: deduplicate and sort the reference SMILES, compute
`1 -` the pairwise Tanimoto distances, build the column prefix from
`reference_name`, and add the nearest-neighbor columns. -/
def nearest_neighbor_tanimoto (fp : String → List Bool)
    (data_smiles reference_smiles : List String) (reference_name : Option String) :
    Except String NeighborColumns :=
  let reference_data := sort_values (drop_duplicates reference_smiles)
  let similarities := (compute_pairwise_tanimoto_distances fp data_smiles reference_data).map
    (fun row => row.map (fun d => 1 - d))
  add_nearest_neighbors similarities reference_data (column_pre reference_name)

/-- The deduplicated, lexicographically sorted reference SMILES built by
`nearest_neighbor_tanimoto` (lines 94-96). -/
def nn_reference (reference_smiles : List String) : List String :=
  sort_values (drop_duplicates reference_smiles)

/-- The similarity matrix built by `nearest_neighbor_tanimoto` (lines
98-102): `1 -` the pairwise Tanimoto distances of the data SMILES against the
deduplicated, sorted reference SMILES. -/
def nn_similarities (fp : String → List Bool)
    (data_smiles reference_smiles : List String) : List (List ℚ) :=
  (compute_pairwise_tanimoto_distances fp data_smiles (nn_reference reference_smiles)).map
    (fun row => row.map (fun d => 1 - d))

theorem le_foldl_max (l : List ℚ) (a : ℚ) : a ≤ l.foldl max a := by
  induction l generalizing a with
  | nil => exact le_refl a
  | cons x xs ih => exact le_trans (le_max_left a x) (ih (max a x))

theorem mem_le_foldl_max (x : ℚ) : ∀ (l : List ℚ) (a : ℚ), x ∈ l → x ≤ l.foldl max a := by
  intro l
  induction l with
  | nil => intro a hx; cases hx
  | cons y ys ih =>
    intro a hx
    simp only [List.foldl_cons]
    rcases List.mem_cons.mp hx with rfl | h
    · exact le_trans (le_max_right a x) (le_foldl_max ys (max a x))
    · exact ih (max a y) h

theorem foldl_max_mem (l : List ℚ) : ∀ a : ℚ, l.foldl max a ∈ a :: l := by
  induction l with
  | nil => intro a; simp
  | cons x xs ih =>
    intro a
    simp only [List.foldl_cons]
    rcases List.mem_cons.mp (ih (max a x)) with heq | hmem
    · rw [heq]
      rcases max_choice a x with hax | hax
      · rw [hax]
        exact List.mem_cons_self _ _
      · rw [hax]
        exact List.mem_cons_of_mem _ (List.mem_cons_self _ _)
    · exact List.mem_cons_of_mem _ (List.mem_cons_of_mem _ hmem)

theorem le_listMax {l : List ℚ} {x : ℚ} (hx : x ∈ l) : x ≤ listMax l := by
  cases l with
  | nil => cases hx
  | cons y ys =>
    simp only [listMax]
    rcases List.mem_cons.mp hx with rfl | h
    · exact le_foldl_max ys x
    · exact mem_le_foldl_max x ys y h

theorem listMax_mem {l : List ℚ} (h : l ≠ []) : listMax l ∈ l := by
  cases l with
  | nil => exact absurd rfl h
  | cons y ys => simpa [listMax] using foldl_max_mem ys y

theorem argmax_lt_length {l : List ℚ} (h : l ≠ []) : argmax l < l.length := by
  unfold argmax
  apply List.findIdx_lt_length.mpr
  exact ⟨listMax l, listMax_mem h, by simp⟩

theorem argmax_getD_eq_listMax {l : List ℚ} (h : l ≠ []) :
    l.getD (argmax l) 0 = listMax l := by
  have hw : argmax l < l.length := argmax_lt_length h
  rw [List.getD_eq_getElem _ _ hw]
  have hfind := (List.findIdx_eq (p := fun x => listMax l ≤ x) hw).mp rfl
  have h1 : listMax l ≤ l[argmax l] := by simpa using hfind.1
  exact le_antisymm (le_listMax (List.getElem_mem _)) h1

theorem argmax_least {l : List ℚ} {k : ℕ} (h : l ≠ []) (hk : k < argmax l) :
    l.getD k 0 < listMax l := by
  have hw : argmax l < l.length := argmax_lt_length h
  have hkl : k < l.length := lt_trans hk hw
  rw [List.getD_eq_getElem _ _ hkl]
  have hfind := (List.findIdx_eq (p := fun x => listMax l ≤ x) hw).mp rfl
  have h2 := hfind.2 k hk
  simp only [decide_eq_false_iff_not, not_le] at h2
  exact h2

theorem mem_dedupFirstAux {x : String} : ∀ (l seen : List String),
    x ∈ dedupFirstAux seen l ↔ (x ∈ l ∧ x ∉ seen) := by
  intro l
  induction l with
  | nil => intro seen; simp [dedupFirstAux]
  | cons y ys ih =>
    intro seen
    by_cases hy : y ∈ seen
    · simp only [dedupFirstAux, if_pos hy, ih seen, List.mem_cons]
      constructor
      · rintro ⟨hx, hns⟩
        exact ⟨Or.inr hx, hns⟩
      · rintro ⟨rfl | hx, hns⟩
        · exact absurd hy hns
        · exact ⟨hx, hns⟩
    · simp only [dedupFirstAux, if_neg hy, List.mem_cons, ih (y :: seen)]
      constructor
      · rintro (rfl | ⟨hx, hns⟩)
        · exact ⟨Or.inl rfl, hy⟩
        · exact ⟨Or.inr hx, fun hs => hns (Or.inr hs)⟩
      · rintro ⟨rfl | hx, hns⟩
        · exact Or.inl rfl
        · by_cases hxy : x = y
          · exact Or.inl hxy
          · exact Or.inr ⟨hx, by simp [hxy, hns]⟩

theorem nodup_dedupFirstAux : ∀ (l seen : List String), (dedupFirstAux seen l).Nodup := by
  intro l
  induction l with
  | nil => intro seen; simp [dedupFirstAux]
  | cons y ys ih =>
    intro seen
    by_cases hy : y ∈ seen
    · simpa [dedupFirstAux, if_pos hy] using ih seen
    · simp only [dedupFirstAux, if_neg hy]
      refine List.nodup_cons.mpr ⟨?_, ih (y :: seen)⟩
      intro hmem
      rcases (mem_dedupFirstAux _ _).mp hmem with ⟨_, hns⟩
      exact hns (List.mem_cons_self _ _)

theorem sort_values_sorted (l : List String) : List.Sorted smilesLe (sort_values l) :=
  List.sorted_insertionSort smilesLe l

theorem sort_values_mem (l : List String) (x : String) : x ∈ sort_values l ↔ x ∈ l :=
  (List.perm_insertionSort smilesLe l).mem_iff

theorem sort_values_nodup {l : List String} (h : l.Nodup) : (sort_values l).Nodup :=
  (List.perm_insertionSort smilesLe l).nodup_iff.mpr h

theorem getD_map {α β : Type} (f : α → β) (l : List α) {i : ℕ} (hi : i < l.length)
    (d : β) (d' : α) : (l.map f).getD i d = f (l.getD i d') := by
  rw [List.getD_eq_getElem _ _ (by simpa using hi), List.getElem_map,
    List.getD_eq_getElem _ _ hi]

theorem nn_similarities_eq_map (fp : String → List Bool)
    (data_smiles reference_smiles : List String) :
    nn_similarities fp data_smiles reference_smiles =
      data_smiles.map (fun s => (nn_reference reference_smiles).map
        (fun t => 1 - jaccardDistance (fp s) (fp t))) := by
  simp [nn_similarities, compute_pairwise_tanimoto_distances, List.map_map,
    Function.comp_def]

theorem nn_similarities_row_length (fp : String → List Bool)
    (data_smiles reference_smiles : List String) :
    ∀ row ∈ nn_similarities fp data_smiles reference_smiles,
      row.length = (nn_reference reference_smiles).length := by
  intro row hrow
  rw [nn_similarities_eq_map] at hrow
  rcases List.mem_map.mp hrow with ⟨s, hs, rfl⟩
  simp

theorem nn_similarities_length (fp : String → List Bool)
    (data_smiles reference_smiles : List String) :
    (nn_similarities fp data_smiles reference_smiles).length = data_smiles.length := by
  rw [nn_similarities_eq_map]
  simp

theorem nn_similarities_all_cond (fp : String → List Bool)
    (data_smiles reference_smiles : List String) :
    (nn_similarities fp data_smiles reference_smiles).all
      (fun row => row.length == (nn_reference reference_smiles).length) = true := by
  rw [List.all_eq_true]
  intro row hrow
  exact beq_iff_eq.mpr (nn_similarities_row_length fp data_smiles reference_smiles row hrow)

theorem nearest_neighbor_tanimoto_eq (fp : String → List Bool)
    (data_smiles reference_smiles : List String) (reference_name : Option String) :
    nearest_neighbor_tanimoto fp data_smiles reference_smiles reference_name =
      add_nearest_neighbors (nn_similarities fp data_smiles reference_smiles)
        (nn_reference reference_smiles) (column_pre reference_name) := rfl

/-- C9: in every invocation of `nearest_neighbor_tanimoto`, every row of the
similarity matrix has exactly one column per deduplicated reference SMILES
(the fingerprint generator yields one vector per molecule), so the
`assert similarities.shape[1] == len(reference_smiles)` inside
`add_nearest_neighbors` holds and its failure branch is unreachable: the call
always returns a result. -/
theorem nearest_neighbor_assertion_holds (fp : String → List Bool)
    (data_smiles reference_smiles : List String) (reference_name : Option String) :
    (∀ row ∈ nn_similarities fp data_smiles reference_smiles,
        row.length = (nn_reference reference_smiles).length) ∧
    ∃ out, nearest_neighbor_tanimoto fp data_smiles reference_smiles reference_name =
      Except.ok out := by
  refine ⟨nn_similarities_row_length _ _ _, ?_⟩
  rw [nearest_neighbor_tanimoto_eq]
  unfold add_nearest_neighbors
  rw [if_pos (nn_similarities_all_cond fp data_smiles reference_smiles)]
  exact ⟨_, rfl⟩

/-- C3: `nearest_neighbor_tanimoto` deduplicates the reference SMILES, sorts
them lexicographically, and for every primary row selects the lowest column
index achieving the row maximum of the primary-by-reference Tanimoto
similarity matrix, storing the reference SMILES at that index in the
`{prefix}nearest_neighbor` column and the similarity value at that index in
the `{prefix}nearest_neighbor_similarity` column. -/
theorem nearest_neighbor_selects_first_max (fp : String → List Bool)
    (data_smiles reference_smiles : List String) (reference_name : Option String)
    (href : reference_smiles ≠ []) :
    ∃ out, nearest_neighbor_tanimoto fp data_smiles reference_smiles reference_name =
        Except.ok out ∧
      List.Sorted smilesLe (nn_reference reference_smiles) ∧
      (nn_reference reference_smiles).Nodup ∧
      (∀ s, s ∈ nn_reference reference_smiles ↔ s ∈ reference_smiles) ∧
      out.nn_name = column_pre reference_name ++ "nearest_neighbor" ∧
      out.sim_name = column_pre reference_name ++ "nearest_neighbor_similarity" ∧
      out.nn.length = data_smiles.length ∧
      out.sim.length = data_smiles.length ∧
      ∀ i : ℕ, i < data_smiles.length →
        argmax ((nn_similarities fp data_smiles reference_smiles).getD i []) <
            (nn_reference reference_smiles).length ∧
        out.nn.getD i "" = (nn_reference reference_smiles).getD
          (argmax ((nn_similarities fp data_smiles reference_smiles).getD i [])) "" ∧
        out.sim.getD i 0 = ((nn_similarities fp data_smiles reference_smiles).getD i []).getD
          (argmax ((nn_similarities fp data_smiles reference_smiles).getD i [])) 0 ∧
        ((nn_similarities fp data_smiles reference_smiles).getD i []).getD
            (argmax ((nn_similarities fp data_smiles reference_smiles).getD i [])) 0 =
          listMax ((nn_similarities fp data_smiles reference_smiles).getD i []) ∧
        ∀ k : ℕ, k < argmax ((nn_similarities fp data_smiles reference_smiles).getD i []) →
          ((nn_similarities fp data_smiles reference_smiles).getD i []).getD k 0 <
            listMax ((nn_similarities fp data_smiles reference_smiles).getD i []) := by
  have hmem : ∀ s, s ∈ nn_reference reference_smiles ↔ s ∈ reference_smiles := by
    intro s
    rw [nn_reference, sort_values_mem, drop_duplicates, mem_dedupFirstAux]
    simp
  have hrefne : nn_reference reference_smiles ≠ [] := by
    rcases List.exists_mem_of_ne_nil reference_smiles href with ⟨x, hx⟩
    exact List.ne_nil_of_mem ((hmem x).mpr hx)
  have hok : nearest_neighbor_tanimoto fp data_smiles reference_smiles reference_name =
      Except.ok
        { nn_name := column_pre reference_name ++ "nearest_neighbor"
          nn := ((nn_similarities fp data_smiles reference_smiles).map argmax).map
            (fun j => (nn_reference reference_smiles).getD j "")
          sim_name := column_pre reference_name ++ "nearest_neighbor_similarity"
          sim := (nn_similarities fp data_smiles reference_smiles).map
            (fun row => row.getD (argmax row) 0) } := by
    rw [nearest_neighbor_tanimoto_eq]
    unfold add_nearest_neighbors
    rw [if_pos (nn_similarities_all_cond fp data_smiles reference_smiles)]
  refine ⟨_, hok, sort_values_sorted _,
    sort_values_nodup (nodup_dedupFirstAux reference_smiles []), hmem, rfl, rfl, ?_, ?_, ?_⟩
  · simp [nn_similarities_length]
  · simp [nn_similarities_length]
  · intro i hi
    have hiS : i < (nn_similarities fp data_smiles reference_smiles).length := by
      rw [nn_similarities_length]
      exact hi
    have hrow_mem : (nn_similarities fp data_smiles reference_smiles).getD i [] ∈
        nn_similarities fp data_smiles reference_smiles := by
      rw [List.getD_eq_getElem _ _ hiS]
      exact List.getElem_mem _
    have hrowlen : ((nn_similarities fp data_smiles reference_smiles).getD i []).length =
        (nn_reference reference_smiles).length :=
      nn_similarities_row_length fp data_smiles reference_smiles _ hrow_mem
    have hrowne : (nn_similarities fp data_smiles reference_smiles).getD i [] ≠ [] := by
      intro hcon
      rw [hcon] at hrowlen
      exact hrefne (List.eq_nil_of_length_eq_zero hrowlen.symm)
    have hargmax := argmax_lt_length hrowne
    refine ⟨?_, ?_, ?_, argmax_getD_eq_listMax hrowne,
      fun k hk => argmax_least hrowne hk⟩
    · rw [← hrowlen]
      exact hargmax
    · show (((nn_similarities fp data_smiles reference_smiles).map argmax).map
          (fun j => (nn_reference reference_smiles).getD j "")).getD i "" = _
      rw [getD_map _ _ (by simpa using hiS) "" 0,
        getD_map _ _ hiS 0 []]
    · show ((nn_similarities fp data_smiles reference_smiles).map
          (fun row => row.getD (argmax row) 0)).getD i 0 = _
      rw [getD_map _ _ hiS 0 []]

/-- A concrete fingerprint generator over SMILES strings, used to instantiate
the nearest-neighbor theorems. -/
def exFp : String → List Bool := fun s => if s = "CCO" then [true, true] else [true, false]

/-- Witness for C9: a concrete nearest-neighbor run returns a result (the
internal assertion holds). -/
theorem nearest_neighbor_assertion_holds_witness :
    ∃ out, nearest_neighbor_tanimoto exFp ["CCO"] ["CCN", "CCO", "CCN"] none =
      Except.ok out :=
  (nearest_neighbor_assertion_holds exFp ["CCO"] ["CCN", "CCO", "CCN"] none).2

/-- Witness for C3: on a concrete run with a duplicated reference SMILES, the
nearest-neighbor column holds the reference SMILES at the first row-maximum
index of the similarity matrix. -/
theorem nearest_neighbor_selects_first_max_witness :
    ∃ out, nearest_neighbor_tanimoto exFp ["CCO"] ["CCN", "CCO", "CCN"] none =
        Except.ok out ∧
      out.nn.getD 0 "" = (nn_reference ["CCN", "CCO", "CCN"]).getD
        (argmax ((nn_similarities exFp ["CCO"] ["CCN", "CCO", "CCN"]).getD 0 [])) "" := by
  obtain ⟨out, hok, _, _, _, _, _, _, _, hrow⟩ :=
    nearest_neighbor_selects_first_max exFp ["CCO"] ["CCN", "CCO", "CCN"] none
      (by decide)
  exact ⟨out, hok, (hrow 0 (by decide)).2.1⟩

/-- Modelled from the spec: the external RDKit molecule adapter used by
`canonicalize_smiles.py` (§6 external collaborator contracts):
`parse(smiles) -> Molecule | null` is `Chem.MolFromSmiles`,
`to_canonical_smiles` is `Chem.MolToSmiles`, and `strip_salts` is
`SaltRemover.StripMol`. -/
structure RDKitEnv (Mol : Type) where
  MolFromSmiles : String → Option Mol
  MolToSmiles : Mol → String
  StripMol : Mol → Mol

/-- Source `canonicalize_smiles` (`canonicalize_smiles.py` lines 12-59) minus
the CSV I/O: rows are (SMILES, rest-of-row) pairs.  Parse each SMILES, count
the rows whose SMILES RDKit cannot parse and drop them, optionally strip
salts, replace the SMILES column by the canonical `MolToSmiles` output,
optionally drop rows whose canonical SMILES contains a '.', and return the
reported invalid count together with the surviving rows. -/
def canonicalize_smiles {Mol σ : Type} (env : RDKitEnv Mol) (rows : List (String × σ))
    (remove_salts delete_disconnected_mols : Bool) : ℕ × List (String × σ) :=
  let mols := rows.map (fun r => env.MolFromSmiles r.1)
  let invalid_count := mols.countP (fun m => m.isNone)
  let kept := (rows.zip mols).filterMap (fun rm => rm.2.map (fun mol => (rm.1, mol)))
  let stripped := if remove_salts then kept.map (fun rm => (rm.1, env.StripMol rm.2)) else kept
  let canon := stripped.map (fun rm => (env.MolToSmiles rm.2, rm.1.2))
  let final := if delete_disconnected_mols then
      canon.filter (fun r => !(r.1.contains '.')) else canon
  (invalid_count, final)

/-- Modelled from the spec: RDKit parse/canonicalize behavior on the three
SMILES of end-to-end scenario 1 — "CCO" and "CC(=O)O" are valid and already
canonical, "invalid_smiles_xyz" fails to parse. -/
def scenarioEnv : RDKitEnv String :=
  { MolFromSmiles := fun s => if s = "invalid_smiles_xyz" then none else some s,
    MolToSmiles := fun m => m,
    StripMol := fun m => m }

/-- The input rows of end-to-end scenario 1 (SMILES plus original row index). -/
def scenarioRows : List (String × ℕ) :=
  [("CCO", 0), ("CC(=O)O", 1), ("invalid_smiles_xyz", 2)]

/-- C8: `canonicalize_smiles` treats unparseable SMILES as non-fatal: it
reports the number of rows whose SMILES fails to parse, drops exactly those
rows, replaces the SMILES of every surviving row by its canonical form, and
continues; in the scenario with SMILES ["CCO", "CC(=O)O", "invalid_smiles_xyz"]
under default settings it yields 2 rows in canonical form with a reported
invalid count of 1. -/
theorem canonicalize_smiles_drops_invalid :
    (∀ (Mol σ : Type) (env : RDKitEnv Mol) (rows : List (String × σ)),
        canonicalize_smiles env rows false false =
          ((rows.filter (fun r => (env.MolFromSmiles r.1).isNone)).length,
            rows.filterMap (fun r => (env.MolFromSmiles r.1).map
              (fun mol => (env.MolToSmiles mol, r.2))))) ∧
    canonicalize_smiles scenarioEnv scenarioRows false false =
      (1, [("CCO", 0), ("CC(=O)O", 1)]) := by
  constructor
  · intro Mol σ env rows
    have hrows : ((rows.zip (rows.map (fun r => env.MolFromSmiles r.1))).filterMap
          (fun rm => rm.2.map (fun mol => (rm.1, mol)))).map
            (fun rm => (env.MolToSmiles rm.2, rm.1.2)) =
        rows.filterMap (fun r => (env.MolFromSmiles r.1).map
          (fun mol => (env.MolToSmiles mol, r.2))) := by
      induction rows with
      | nil => rfl
      | cons r rs ih =>
        simp only [List.map_cons, List.zip_cons_cons, List.filterMap_cons]
        cases henv : env.MolFromSmiles r.1 with
        | none => simpa [henv] using ih
        | some mol => simp [henv, ih]
    have hcount : (rows.map (fun r => env.MolFromSmiles r.1)).countP (fun m => m.isNone) =
        (rows.filter (fun r => (env.MolFromSmiles r.1).isNone)).length := by
      rw [List.countP_map, List.countP_eq_length_filter]
      rfl
    simp only [canonicalize_smiles, Bool.false_eq_true, if_false]
    rw [hcount, hrows]
  · rfl

end ChemFunc
